import Mathlib

/-!
Shallow embedding of the resolution-prover repository
(src/propositions.rs, src/clauses.rs, src/resolution.rs).

Rust `panic!` branches are modelled by `Option`-valued functions returning
`none`.  The one infinitely recursing arm of `bubble_up_ands_` (its phase-1
default arm applied to `Implies`/`Iff` with `cleared = false`) is likewise
modelled by `none`: in both cases the Rust function produces no normal
result.  The unbounded recursion of `resolve_` is modelled with an explicit
fuel argument (the Rust function has no termination guarantee); running out
of fuel yields `false`, so a `true` answer always corresponds to a genuine
derivation performed by the Rust code.
-/

namespace Prover

/-- Atom names used in concrete test inputs. -/
def nameA : String := "a"

def nameB : String := "b"

def nameC : String := "c"

def nameD : String := "d"

def nameP : String := "p"

def nameQ : String := "q"

/-- Mirrors `enum Proposition` in src/propositions.rs. -/
inductive Proposition : Type where
  | Or : Proposition → Proposition → Proposition
  | And : Proposition → Proposition → Proposition
  | Implies : Proposition → Proposition → Proposition
  | Iff : Proposition → Proposition → Proposition
  | Not : Proposition → Proposition
  | Term : String → Proposition
deriving DecidableEq

/-- Smart constructor `or` from src/propositions.rs. -/
def or (a b : Proposition) : Proposition := Proposition.Or a b

/-- Smart constructor `and` from src/propositions.rs. -/
def and (a b : Proposition) : Proposition := Proposition.And a b

/-- Smart constructor `implies` from src/propositions.rs. -/
def implies (a b : Proposition) : Proposition := Proposition.Implies a b

/-- Smart constructor `iff` from src/propositions.rs. -/
def iff (a b : Proposition) : Proposition := Proposition.Iff a b

/-- Smart constructor `not` from src/propositions.rs. -/
def not (prop : Proposition) : Proposition := Proposition.Not prop

/-- Smart constructor `term` from src/propositions.rs. -/
def term (value : String) : Proposition := Proposition.Term value

/-- Mirrors `enum ClausePart` in src/clauses.rs. -/
inductive ClausePart : Type where
  | Term : String → ClausePart
  | NegatedTerm : String → ClausePart
deriving DecidableEq

/-- Mirrors `ClausePart::negate` in src/clauses.rs. -/
def ClausePart.negate : ClausePart → ClausePart
  | .Term a => .NegatedTerm a
  | .NegatedTerm a => .Term a

/-- Mirrors `struct Clause` in src/clauses.rs; the derived Rust `PartialEq`
is order-sensitive equality of the `parts` vector, matched here by
structural equality of the list. -/
structure Clause : Type where
  parts : List ClausePart
deriving DecidableEq

/-- Mirrors `Clause::eliminate_implication` in src/clauses.rs.  Note the
Rust default arm `p => p` returns every non-`Implies`/`Iff` node unchanged
without recursing into its children.  The source's `Iff` arm recurses on
`implies(a, b)` and `implies(b, a)`; here that inner `Implies` step is
inlined so the recursion is structural, and the lemma
`eliminate_implication_iff_eq` below certifies by `rfl` that the source's
literal `Iff` equation holds of this definition. -/
def Clause.eliminate_implication : Proposition → Proposition
  | .Implies a b =>
      or (not (Clause.eliminate_implication a)) (Clause.eliminate_implication b)
  | .Iff a b =>
      and (or (not (Clause.eliminate_implication a))
            (Clause.eliminate_implication b))
        (or (not (Clause.eliminate_implication b))
          (Clause.eliminate_implication a))
  | p => p

mutual

/-- Mirrors `Clause::reduce_negation` in src/clauses.rs; `none` models the
two `panic!` arms (reached on `Implies`/`Iff`).  The source's `Not` arm
pulls the negated proposition out and matches it again; that inner match
is the mutually recursive `Clause.reduce_negation_not`, and the lemma
`reduce_negation_not_eq` below certifies by `rfl` that
`reduce_negation_not x` is exactly `reduce_negation (not x)` as written in
the source. -/
def Clause.reduce_negation : Proposition → Option Proposition
  | .Not a => Clause.reduce_negation_not a
  | .Or a b => do
      let ra ← Clause.reduce_negation a
      let rb ← Clause.reduce_negation b
      pure (or ra rb)
  | .And a b => do
      let ra ← Clause.reduce_negation a
      let rb ← Clause.reduce_negation b
      pure (and ra rb)
  | .Term a => some (term a)
  | _ => none

/-- The inner match of the source's `Not` arm of `reduce_negation`, on the
proposition under the negation. -/
def Clause.reduce_negation_not : Proposition → Option Proposition
  | .Not b => Clause.reduce_negation b
  | .And b c => do
      let rb ← Clause.reduce_negation_not b
      let rc ← Clause.reduce_negation_not c
      pure (or rb rc)
  | .Or b c => do
      let rb ← Clause.reduce_negation_not b
      let rc ← Clause.reduce_negation_not c
      pure (and rb rc)
  | .Term b => some (not (term b))
  | _ => none

end

/-- Mirrors `Clause::bubble_up_ands_` in src/clauses.rs.  Phase 1 is the
first Rust `match` (building `handled`), phase 2 is the second; `none`
models both the `panic!` arm of phase 2 and the infinitely recursing
default arm of phase 1. -/
def Clause.bubble_up_ands_ (prop : Proposition) (cleared : Bool) :
    Option (Proposition × Bool) :=
  let phase2 : Proposition → Option (Proposition × Bool) := fun handled =>
    match handled with
    | .Or a b =>
        match a, b with
        | .And c d, e => some (and (or c e) (or d e), true)
        | c, .And d e => some (and (or c d) (or c e), true)
        | p1, p2 => some (or p1 p2, true)
    | .And a b => some (and a b, true)
    | .Not a => some (not a, true)
    | .Term a => some (term a, true)
    | _ => none
  if cleared then phase2 prop
  else
    match prop with
    | .Term a => phase2 (term a)
    | .Not a => do
        let ra ← Clause.bubble_up_ands_ a false
        phase2 (not ra.1)
    | .Or a b => do
        let ra ← Clause.bubble_up_ands_ a false
        let rb ← Clause.bubble_up_ands_ b false
        phase2 (or ra.1 rb.1)
    | .And a b => do
        let ra ← Clause.bubble_up_ands_ a false
        let rb ← Clause.bubble_up_ands_ b false
        phase2 (and ra.1 rb.1)
    | _ => none

/-- Mirrors `Clause::bubble_up_ands` in src/clauses.rs. -/
def Clause.bubble_up_ands (prop : Proposition) : Option Proposition :=
  (Clause.bubble_up_ands_ prop false).map (fun r => r.1)

/-- Mirrors `Clause::split_on_ands` in src/clauses.rs. -/
def Clause.split_on_ands (prop : Proposition) : List Proposition :=
  match prop with
  | .And a b => Clause.split_on_ands a ++ Clause.split_on_ands b
  | p => [p]

/-- Mirrors `Clause::from_or_not_prop` in src/clauses.rs; `none` models its
`panic!` arms. -/
def Clause.from_or_not_prop (prop : Proposition) : Option (List ClausePart) :=
  match prop with
  | .Or a b => do
      let pa ← Clause.from_or_not_prop a
      let pb ← Clause.from_or_not_prop b
      pure (pa ++ pb)
  | .Not inner =>
      match inner with
      | .Term a => some [ClausePart.NegatedTerm a]
      | _ => none
  | .Term a => some [ClausePart.Term a]
  | _ => none

/-- Models `xs.iter().map(f).collect()` for a panicking `f`: the whole
collection panics as soon as one element does. -/
def traverseOption (f : α → Option β) : List α → Option (List β)
  | [] => some []
  | x :: xs => do
      let y ← f x
      let ys ← traverseOption f xs
      pure (y :: ys)

/-- Mirrors `Clause::break_into_clauses` in src/clauses.rs. -/
def Clause.break_into_clauses (prop : Proposition) :
    Option (List (List ClausePart)) := do
  let no_implication := Clause.eliminate_implication prop
  let red_negations ← Clause.reduce_negation no_implication
  let bubbled ← Clause.bubble_up_ands red_negations
  let or_not_props := Clause.split_on_ands bubbled
  traverseOption Clause.from_or_not_prop or_not_props

/-- Mirrors `Clause::from_proposition` in src/clauses.rs. -/
def Clause.from_proposition (prop : Proposition) : Option (List Clause) :=
  (Clause.break_into_clauses prop).map
    (fun all_parts => all_parts.map (fun parts => Clause.mk parts))

/-- Truth value of a proposition under a truth assignment of the atoms;
this is the standard classical semantics the specification refers to. -/
def Proposition.eval (v : String → Bool) : Proposition → Bool
  | .Or a b => a.eval v || b.eval v
  | .And a b => a.eval v && b.eval v
  | .Implies a b => !(a.eval v) || b.eval v
  | .Iff a b => a.eval v == b.eval v
  | .Not a => !(a.eval v)
  | .Term s => v s

/-- Semantic consequence in classical propositional logic: every truth
assignment satisfying all assumptions satisfies the goal. -/
def entails (assumptions : List Proposition) (goal : Proposition) : Prop :=
  ∀ v : String → Bool,
    (∀ a ∈ assumptions, a.eval v = true) → goal.eval v = true

/-- Mirrors `combine` in src/resolution.rs.  The Rust function builds a
`HashSet` holding the union of the two literal vectors and then removes
both members of every complementary pair; the resulting vector order is
whatever the hash iteration yields, which Rust leaves unspecified, so this
embedding fixes the deterministic first-occurrence order.  The literal
*set* of the result is exactly the Rust one. -/
def combine (a b : Clause) : Clause :=
  Clause.mk ((a.parts ++ b.parts).dedup.filter (fun p =>
    !(decide ((p ∈ a.parts ∧ p.negate ∈ b.parts) ∨
      (p ∈ b.parts ∧ p.negate ∈ a.parts)))))

/-- Mirrors `struct ClauseStorage` in src/resolution.rs; the `MultiMap` is
modelled by the flat list of its insertions, which preserves the per-key
insertion order `get_vec` exposes. -/
structure ClauseStorage : Type where
  lookup_table : List (ClausePart × Nat)
  clauses : List Clause
deriving DecidableEq

/-- Models `MultiMap::get_vec` followed by the `None => vec!()` default of
`ClauseStorage::get`: the indices stored for a key, in insertion order. -/
def multiMapGetVec (table : List (ClausePart × Nat)) (key : ClausePart) :
    List Nat :=
  (table.filter (fun e => decide (e.1 = key))).map (fun e => e.2)

/-- Mirrors `ClauseStorage::new` in src/resolution.rs. -/
def ClauseStorage.new : ClauseStorage :=
  { lookup_table := [], clauses := [] }

/-- Mirrors `ClauseStorage::get` in src/resolution.rs. -/
def ClauseStorage.get (s : ClauseStorage) (part : ClausePart)
    (visited : List Clause) : List Clause :=
  ((multiMapGetVec s.lookup_table part).filterMap
      (fun i => s.clauses.get? i)).filter
    (fun v => !(decide (v ∈ visited)))

/-- Mirrors `ClauseStorage::put` in src/resolution.rs. -/
def ClauseStorage.put (s : ClauseStorage) (clause : Clause) : ClauseStorage :=
  { lookup_table :=
      s.lookup_table ++ clause.parts.map (fun p => (p, s.clauses.length)),
    clauses := s.clauses ++ [clause] }

/-- Mirrors `resolve_` in src/resolution.rs; the `visited` hash set is
modelled as a duplicate-free list and the unbounded Rust recursion is cut
by fuel (exhaustion yields `false`). -/
def resolve_ (clauses : ClauseStorage) : Nat → Clause → List Clause → Bool
  | 0, _, _ => false
  | fuel + 1, current, visited =>
      current.parts.any (fun p =>
        (clauses.get p.negate visited).any (fun m =>
          let next := combine current m
          if next.parts.length = 0 then true
          else
            let new_visited :=
              if next ∈ visited then visited else visited ++ [next]
            resolve_ clauses fuel next new_visited))

/-- Mirrors `resolve` in src/resolution.rs; `none` propagates a clausifier
panic, and the fuel bounds the depth of the recursive search. -/
def resolve (assumptions : List Proposition) (goal : Proposition)
    (fuel : Nat) : Option Bool := do
  let per_assumption ← traverseOption Clause.from_proposition assumptions
  let assumption_clauses := per_assumption.flatten
  let clauses := assumption_clauses.foldl ClauseStorage.put ClauseStorage.new
  let negated_goal := not goal
  let neg_goal_clauses ← Clause.from_proposition negated_goal
  some (neg_goal_clauses.any (fun c =>
    let others := neg_goal_clauses.filter (fun v => !(decide (v = c)))
    let all_clauses := others.foldl ClauseStorage.put clauses
    resolve_ all_clauses fuel c [c]))

/-- Checks whether a formula contains an `Implies` or an `Iff` node. -/
def hasImpliesOrIff : Proposition → Bool
  | .Or a b => hasImpliesOrIff a || hasImpliesOrIff b
  | .And a b => hasImpliesOrIff a || hasImpliesOrIff b
  | .Implies _ _ => true
  | .Iff _ _ => true
  | .Not a => hasImpliesOrIff a
  | .Term _ => false

/-- Checks whether a formula contains an `And` node. -/
def containsAnd : Proposition → Bool
  | .Or a b => containsAnd a || containsAnd b
  | .And _ _ => true
  | .Implies a b => containsAnd a || containsAnd b
  | .Iff a b => containsAnd a || containsAnd b
  | .Not a => containsAnd a
  | .Term _ => false

/-- The CNF shape condition of the specification: no `Or` node has an
`And` node as a descendant. -/
def orAndFree : Proposition → Bool
  | .Or a b => !(containsAnd a) && !(containsAnd b)
  | .And a b => orAndFree a && orAndFree b
  | .Implies a b => orAndFree a && orAndFree b
  | .Iff a b => orAndFree a && orAndFree b
  | .Not a => orAndFree a
  | .Term _ => true

/-- The clause store invariant of the specification, over the embedded
`ClauseStorage`: the index entry for a literal holds exactly the
identifiers of stored clauses containing that literal. -/
def storageInv (s : ClauseStorage) : Prop :=
  ∀ (l : ClausePart) (i : Nat),
    i ∈ multiMapGetVec s.lookup_table l ↔
      ∃ c, s.clauses.get? i = some c ∧ l ∈ c.parts

/-- Additional atom names for the iteration-order test input. -/
def nameR : String := "r"

def nameS : String := "s"

def nameT : String := "t"

/-- The `combine` of src/resolution.rs with the order of the resulting
literal vector made explicit: `arrange` stands for the iteration order of
the result `HashSet`, which the Rust standard library leaves unspecified
and varies between runs.  Any `arrange` that permutes its input is a
possible behaviour of the Rust code. -/
def combineOrd (arrange : List ClausePart → List ClausePart)
    (a b : Clause) : Clause :=
  Clause.mk (arrange (combine a b).parts)

/-- Sequential short-circuit disjunction over search branches, as the Rust
`for` loops perform it: `some true` stops the loop, `none` (a branch whose
recursion exceeded the fuel, i.e. a search the Rust code has not finished)
aborts everything after it, `some false` moves to the next branch. -/
def seqSearch (f : Clause → Option Bool) : List Clause → Option Bool
  | [] => some false
  | m :: ms =>
      match f m with
      | some true => some true
      | none => none
      | some false => seqSearch f ms

/-- The search `resolve_` of src/resolution.rs with the combine iteration
order made explicit.  Unlike the `Bool`-valued `resolve_` above, running
out of fuel yields `none`, so `some false` certifies that the search space
was exhausted and `some true` that the empty clause was derived; the
nested loops over literals and candidate clauses are flattened into the
single candidate list their iteration visits. -/
def resolveOrd_ (arrange : List ClausePart → List ClausePart)
    (clauses : ClauseStorage) : Nat → Clause → List Clause → Option Bool
  | 0, _, _ => none
  | fuel + 1, current, visited =>
      seqSearch (fun m =>
          let next := combineOrd arrange current m
          if next.parts.length = 0 then some true
          else
            resolveOrd_ arrange clauses fuel next
              (if next ∈ visited then visited else visited ++ [next]))
        (current.parts.flatMap (fun p => clauses.get p.negate visited))

/-- The `resolve` of src/resolution.rs with the combine iteration order
made explicit; the outer `Option` models a clausifier panic, the inner
value is the three-valued search result of `resolveOrd_`. -/
def resolveOrd (arrange : List ClausePart → List ClausePart)
    (assumptions : List Proposition) (goal : Proposition) (fuel : Nat) :
    Option (Option Bool) := do
  let per_assumption ← traverseOption Clause.from_proposition assumptions
  let assumption_clauses := per_assumption.flatten
  let clauses := assumption_clauses.foldl ClauseStorage.put ClauseStorage.new
  let negated_goal := not goal
  let neg_goal_clauses ← Clause.from_proposition negated_goal
  some (seqSearch (fun c =>
      let others := neg_goal_clauses.filter (fun v => !(decide (v = c)))
      let all_clauses := others.foldl ClauseStorage.put clauses
      resolveOrd_ arrange all_clauses fuel c [c])
    neg_goal_clauses)

/-- An iteration order that yields the literals of the resolvent
`{q, r}` as `r, q` instead of `q, r` and behaves like insertion order
everywhere else; a permutation, hence a possible `HashSet` iteration. -/
def arrangeSwapQR (l : List ClausePart) : List ClausePart :=
  if l = [ClausePart.Term nameQ, ClausePart.Term nameR] then
    [ClausePart.Term nameR, ClausePart.Term nameQ]
  else l

/-- Assumption set for the iteration-order experiment: clauses
`s \/ q \/ r`, `q \/ r`, `~q \/ t`, `~q \/ ~t`, `~r`. -/
def c6Assumptions : List Proposition :=
  [or (term nameS) (or (term nameQ) (term nameR)),
   or (term nameQ) (term nameR),
   or (not (term nameQ)) (term nameT),
   or (not (term nameQ)) (not (term nameT)),
   not (term nameR)]

/-- C1: the claim states that a `true` answer of `resolve` implies semantic
consequence.  The code violates it: `combine` cancels *all* complementary
pairs at once, so resolving the clause `p \/ q` (from the negated goal
`~(p \/ q)`) against the assumption clause `~p \/ ~q` yields the empty
clause in one step and `resolve` answers `true`, yet the assignment sending
`p` to true and `q` to false satisfies the assumption and falsifies the
goal, so the goal is not a semantic consequence. -/
theorem resolve_unsound_on_simultaneous_cancellation :
    resolve [or (not (term nameP)) (not (term nameQ))]
        (not (or (term nameP) (term nameQ))) 1 = some true ∧
      ¬ entails [or (not (term nameP)) (not (term nameQ))]
        (not (or (term nameP) (term nameQ))) := by
  refine ⟨by decide, fun h => ?_⟩
  exact absurd (h (fun s => s == nameP) (by decide)) (by decide)

/-- C2: the claim states that the clausifier never panics on well-formed
formulas.  The code violates it: on `(a /\ b) \/ (c /\ d)` the single-pass
distribution of `bubble_up_ands` leaves an `And` under an `Or` and
`from_or_not_prop` hits its panic arm, and on `(a -> b) /\ c` the
non-recursive `eliminate_implication` leaves the implication in place and
`reduce_negation` hits its panic arm; both evaluate to `none`. -/
theorem from_proposition_panics_on_wellformed_input :
    Clause.from_proposition
        (or (and (term nameA) (term nameB)) (and (term nameC) (term nameD)))
        = none ∧
      Clause.from_proposition
        (and (implies (term nameA) (term nameB)) (term nameC)) = none := by
  constructor
  · decide
  · decide

/-- C3: the claim states that `eliminate_implication` removes every
`Implies` and `Iff` node, recursing into the children of other nodes.  The
code violates it: its default arm returns any non-`Implies`/`Iff` node
unchanged without recursing, so `~(a -> b)` is returned as-is and still
contains an `Implies` node. -/
theorem eliminate_implication_misses_nested_implies :
    Clause.eliminate_implication (not (implies (term nameA) (term nameB)))
        = not (implies (term nameA) (term nameB)) ∧
      hasImpliesOrIff
        (Clause.eliminate_implication
          (not (implies (term nameA) (term nameB)))) = true := by
  constructor
  · decide
  · decide

/-- C4: the claim states that after stages 1-3 no `Or` node has an `And`
descendant and that `(a /\ b) \/ (c /\ d)` clausifies to four clauses.
The code violates it: the single-pass distribution returns
`(a \/ (c /\ d)) /\ (b \/ (c /\ d))`, which still has `And` nodes under
`Or` nodes, and the full pipeline then panics instead of producing four
clauses. -/
theorem bubble_up_ands_leaves_and_under_or :
    ((Clause.reduce_negation
          (Clause.eliminate_implication
            (or (and (term nameA) (term nameB))
              (and (term nameC) (term nameD))))).bind
        Clause.bubble_up_ands)
        = some (and (or (term nameA) (and (term nameC) (term nameD)))
            (or (term nameB) (and (term nameC) (term nameD)))) ∧
      orAndFree (and (or (term nameA) (and (term nameC) (term nameD)))
          (or (term nameB) (and (term nameC) (term nameD)))) = false ∧
      Clause.from_proposition
        (or (and (term nameA) (term nameB)) (and (term nameC) (term nameD)))
        = none := by
  refine ⟨by decide, by decide, by decide⟩

/-- C5 counterexample: two clauses holding the same literals in different
order are equal as multisets but unequal under the clause equality the code
derives, refuting the claim that clause equality is multiset equality. -/
theorem clause_eq_not_multiset_eq :
    Clause.mk [ClausePart.Term nameP, ClausePart.Term nameQ] ≠
        Clause.mk [ClausePart.Term nameQ, ClausePart.Term nameP] ∧
      ((Clause.mk [ClausePart.Term nameP, ClausePart.Term nameQ]).parts :
          Multiset ClausePart) =
        ((Clause.mk [ClausePart.Term nameQ, ClausePart.Term nameP]).parts :
          Multiset ClausePart) := by
  constructor
  · decide
  · decide

/-- C5 amended: clause equality is equality of the stored literal
sequences, order included (the derived `PartialEq` on the `parts` vector);
equal clauses in particular have equal literal multisets, but multiset
equality alone does not make clauses equal. -/
theorem clause_eq_iff_parts_list_eq :
    ∀ c1 c2 : Clause, c1 = c2 ↔ c1.parts = c2.parts := by
  intro c1 c2
  cases c1
  cases c2
  simp

/-- Negating a literal twice is the identity (`ClausePart::negate`). -/
theorem ClausePart.negate_negate (l : ClausePart) : l.negate.negate = l := by
  cases l <;> rfl

/-- Membership in the literal list produced by `combine`: the union of the
parents' literals minus every member of a complementary pair. -/
theorem combine_mem (a b : Clause) (l : ClausePart) :
    l ∈ (combine a b).parts ↔
      ((l ∈ a.parts ∨ l ∈ b.parts) ∧
        ¬(l ∈ a.parts ∧ l.negate ∈ b.parts) ∧
        ¬(l ∈ b.parts ∧ l.negate ∈ a.parts)) := by
  simp only [combine, List.mem_filter, List.mem_dedup, List.mem_append,
    Bool.not_eq_true', decide_eq_false_iff_not]
  tauto

/-- C8: `combine` computes the simultaneous resolvent.  Its literal set is
the union of the parents' literal sets with every complementary pair
removed, two complementary singletons annihilate to the empty clause, and
the operation is symmetric on literal sets. -/
theorem combine_simultaneous_resolvent :
    (∀ (a b : Clause) (l : ClausePart),
        l ∈ (combine a b).parts ↔
          ((l ∈ a.parts ∨ l ∈ b.parts) ∧
            ¬(l ∈ a.parts ∧ l.negate ∈ b.parts) ∧
            ¬(l ∈ b.parts ∧ l.negate ∈ a.parts))) ∧
      (∀ l : ClausePart,
        combine (Clause.mk [l]) (Clause.mk [l.negate]) = Clause.mk []) ∧
      (∀ (a b : Clause) (l : ClausePart),
        l ∈ (combine a b).parts ↔ l ∈ (combine b a).parts) := by
  refine ⟨combine_mem, fun l => ?_, fun a b l => ?_⟩
  · have hnil : (combine (Clause.mk [l]) (Clause.mk [l.negate])).parts = [] := by
      rw [List.eq_nil_iff_forall_not_mem]
      intro x hx
      rw [combine_mem] at hx
      obtain ⟨hmem, h1, h2⟩ := hx
      simp only [List.mem_singleton] at hmem
      rcases hmem with rfl | rfl
      · exact h1 ⟨by simp, by simp⟩
      · exact h2 ⟨by simp, by simp [ClausePart.negate_negate]⟩
    exact congrArg Clause.mk hnil
  · rw [combine_mem, combine_mem]
    tauto

/-- The `Iff` arm of the source,
`and(eliminate_implication(implies(a, b)), eliminate_implication(implies(b, a)))`,
holds definitionally of the embedding. -/
theorem eliminate_implication_iff_eq (a b : Proposition) :
    Clause.eliminate_implication (iff a b) =
      and (Clause.eliminate_implication (implies a b))
        (Clause.eliminate_implication (implies b a)) := rfl

/-- Every recursive call written `reduce_negation(not(x))` in the source
is definitionally the mutual helper `reduce_negation_not x`. -/
theorem reduce_negation_not_eq (x : Proposition) :
    Clause.reduce_negation_not x = Clause.reduce_negation (not x) := rfl

/-- Every index recorded in the lookup table under a key corresponds to an
insertion of that exact pair. -/
theorem multiMapGetVec_mem (t : List (ClausePart × Nat)) (k : ClausePart)
    (i : Nat) : i ∈ multiMapGetVec t k ↔ (k, i) ∈ t := by
  simp only [multiMapGetVec, List.mem_map, List.mem_filter,
    decide_eq_true_eq]
  constructor
  · rintro ⟨⟨k1, i1⟩, ⟨he, hk⟩, hi⟩
    simp only at hk hi
    rw [← hk, ← hi]
    exact he
  · intro h
    exact ⟨(k, i), ⟨h, rfl⟩, rfl⟩

/-- The empty store satisfies the index invariant. -/
theorem storageInv_new : storageInv ClauseStorage.new := by
  intro l i
  simp [ClauseStorage.new, multiMapGetVec]

/-- `put` preserves the index invariant. -/
theorem storageInv_put (s : ClauseStorage) (cl : Clause)
    (h : storageInv s) : storageInv (s.put cl) := by
  intro l i
  have hidx : ∀ j, (l, j) ∈ s.lookup_table → j < s.clauses.length := by
    intro j hj
    have := (h l j).mp ((multiMapGetVec_mem _ _ _).mpr hj)
    obtain ⟨c, hc, _⟩ := this
    obtain ⟨hlt, _⟩ := List.get?_eq_some.mp hc
    exact hlt
  rw [multiMapGetVec_mem]
  simp only [ClauseStorage.put, List.mem_append, List.mem_map]
  rcases Nat.lt_trichotomy i s.clauses.length with hi | hi | hi
  · rw [List.get?_append hi]
    constructor
    · rintro (ht | ⟨p, hp, hpair⟩)
      · exact (h l i).mp ((multiMapGetVec_mem _ _ _).mpr ht)
      · exfalso
        have : s.clauses.length = i := ((Prod.mk.injEq _ _ _ _).mp hpair).2
        omega
    · intro hex
      exact Or.inl ((multiMapGetVec_mem _ _ _).mp ((h l i).mpr hex))
  · subst hi
    rw [List.get?_append_right (Nat.le_refl _)]
    simp only [Nat.sub_self, List.get?]
    constructor
    · rintro (ht | ⟨p, hp, hpair⟩)
      · exact absurd (hidx _ ht) (by omega)
      · obtain ⟨hp1, _⟩ := (Prod.mk.injEq _ _ _ _).mp hpair
        exact ⟨cl, rfl, hp1 ▸ hp⟩
    · rintro ⟨c, hc, hl⟩
      injection hc with hc
      subst hc
      exact Or.inr ⟨l, hl, rfl⟩
  · rw [List.get?_append_right (by omega)]
    have hnone : ([cl] : List Clause).get? (i - s.clauses.length) = none := by
      apply List.get?_len_le
      simp
      omega
    rw [hnone]
    constructor
    · rintro (ht | ⟨p, hp, hpair⟩)
      · exact absurd (hidx _ ht) (by omega)
      · have : s.clauses.length = i := ((Prod.mk.injEq _ _ _ _).mp hpair).2
        omega
    · rintro ⟨c, hc, _⟩
      cases hc

/-- Folding `put` over any clause list preserves the index invariant. -/
theorem storageInv_foldl (cs : List Clause) :
    ∀ s : ClauseStorage, storageInv s →
      storageInv (cs.foldl ClauseStorage.put s) := by
  induction cs with
  | nil => intro s hs; exact hs
  | cons c cs ih => intro s hs; exact ih (s.put c) (storageInv_put s c hs)

/-- C9: starting from `ClauseStorage::new` and after any sequence of `put`
operations, an identifier appears in the index entry of a literal exactly
when the clause stored under that identifier contains the literal. -/
theorem clause_storage_index_invariant :
    ∀ (cs : List Clause) (l : ClausePart) (i : Nat),
      i ∈ multiMapGetVec
          (cs.foldl ClauseStorage.put ClauseStorage.new).lookup_table l ↔
        ∃ c, (cs.foldl ClauseStorage.put ClauseStorage.new).clauses.get? i
            = some c ∧ l ∈ c.parts :=
  fun cs => storageInv_foldl cs ClauseStorage.new storageInv_new

/-- Splitting on conjunctions always yields at least one piece. -/
theorem split_on_ands_length (p : Proposition) :
    1 ≤ (Clause.split_on_ands p).length := by
  induction p with
  | Or a b iha ihb => simp [Clause.split_on_ands]
  | And a b iha ihb =>
      simp only [Clause.split_on_ands, List.length_append]
      omega
  | Implies a b iha ihb => simp [Clause.split_on_ands]
  | Iff a b iha ihb => simp [Clause.split_on_ands]
  | Not a iha => simp [Clause.split_on_ands]
  | Term s => simp [Clause.split_on_ands]

/-- A successful panicking-map collection has the length of its input. -/
theorem traverseOption_length (f : α → Option β) :
    ∀ (xs : List α) (ys : List β),
      traverseOption f xs = some ys → ys.length = xs.length := by
  intro xs
  induction xs with
  | nil =>
      intro ys h
      simp only [traverseOption, Option.some.injEq] at h
      subst h
      rfl
  | cons x xs ih =>
      intro ys h
      simp only [traverseOption] at h
      cases hfx : f x with
      | none => rw [hfx] at h; simp at h
      | some y =>
          rw [hfx] at h
          cases ht : traverseOption f xs with
          | none => rw [ht] at h; simp at h
          | some ys' =>
              rw [ht] at h
              simp at h
              subst h
              simp [ih ys' ht]

/-- Unfolding of the clausifier pipeline into explicit `Option.bind`
applications; holds definitionally. -/
theorem break_into_clauses_eq (p : Proposition) :
    Clause.break_into_clauses p =
      (Clause.reduce_negation (Clause.eliminate_implication p)).bind
        (fun red => (Clause.bubble_up_ands red).bind
          (fun bb => traverseOption Clause.from_or_not_prop
            (Clause.split_on_ands bb))) := rfl

/-- C10: whenever the clausifier returns normally it returns at least one
clause, because `split_on_ands` always yields a non-empty list of pieces
and the final collection maps over those pieces one-to-one. -/
theorem from_proposition_yields_seed_clause :
    ∀ (p : Proposition) (cs : List Clause),
      Clause.from_proposition p = some cs → 1 ≤ cs.length := by
  intro p cs h
  unfold Clause.from_proposition at h
  obtain ⟨ls, hbreak, hcs⟩ := Option.map_eq_some'.mp h
  rw [break_into_clauses_eq] at hbreak
  obtain ⟨red, hred, hrest⟩ := Option.bind_eq_some.mp hbreak
  obtain ⟨bb, hbb, htrav⟩ := Option.bind_eq_some.mp hrest
  have hlen := traverseOption_length Clause.from_or_not_prop _ _ htrav
  have hsplit := split_on_ands_length bb
  rw [← hcs, List.length_map]
  omega

/-- C10 witness: the clausifier succeeds on the single term `p` and the
returned clause list is non-empty. -/
theorem from_proposition_yields_seed_clause_witness :
    Clause.from_proposition (term nameP)
        = some [Clause.mk [ClausePart.Term nameP]] ∧
      1 ≤ ([Clause.mk [ClausePart.Term nameP]] : List Clause).length :=
  ⟨by decide,
    from_proposition_yields_seed_clause (term nameP)
      [Clause.mk [ClausePart.Term nameP]] (by decide)⟩

/-- C7: on the empty assumption list and the tautological goal
`p \/ ~p`, the negated goal clausifies to the two unit clauses `~p` and
`p`; for the seed `~p` the remaining clause `p` is added to the store and
one combine step yields the empty clause, so `resolve` answers `true`. -/
theorem resolve_excluded_middle_tautology :
    resolve [] (or (term nameP) (not (term nameP))) 1 = some true := by
  decide

/-- C6: the claim states that the boolean result of `resolve` is a
function of the input alone, independent of hash-set iteration order.  The
code violates it: clause equality is order-sensitive, so whether the
visited set blocks a stored clause depends on the order in which `combine`
emits its `HashSet`.  On the assumptions `s \/ q \/ r`, `q \/ r`,
`~q \/ t`, `~q \/ ~t`, `~r` and goal `s`, the seed `~s` resolves with
`s \/ q \/ r` to the resolvent with literal set `{q, r}`.  If the hash
order emits it as `q, r` it equals the stored clause `q \/ r`, which is
then blocked for the whole search and the exhausted search answers
`false`; if the hash order emits `r, q` the stored clause stays available,
the path through `~q \/ t`, `~q \/ ~t`, `q \/ r`, `~r` derives the empty
clause, and the search answers `true`.  Both orders are permutations of
the same literal set, hence possible runs of the Rust code, and both
searches terminate (`some false` is exhaustion, not fuel-out, which would
be `none`). -/
theorem resolve_depends_on_hash_iteration_order :
    (∀ l : List ClausePart, List.Perm (arrangeSwapQR l) l) ∧
      resolve c6Assumptions (term nameS) 12 = some false ∧
      resolveOrd (fun l => l) c6Assumptions (term nameS) 12
        = some (some false) ∧
      resolveOrd arrangeSwapQR c6Assumptions (term nameS) 12
        = some (some true) := by
  refine ⟨fun l => ?_, by decide, by decide, by decide⟩
  unfold arrangeSwapQR
  split
  · rename_i h
    rw [h]
    exact List.Perm.swap _ _ _
  · exact List.Perm.refl l

end Prover
